import Mathlib

/-!
Shallow embedding of `neurokit2/ecg/ecg_intervalrelated.py`.

Python `dict`s (both the per-window feature records and the module-level
mutable default arguments of the two helpers) are modelled as insertion-ordered
association lists with Python assignment semantics (`d[k] = v` overwrites in
place when the key is present, appends otherwise).  `pandas.DataFrame` inputs
are modelled as ordered lists of named columns of rational values.  Machine
floats are modelled by `ℚ`; `np.mean` is the exact arithmetic mean.  The
external collaborator `ecg_hrv` (imported from `.ecg_hrv`, not part of this
core) is a parameter of every definition.  The two module-level default
dictionaries are threaded explicitly as a `DefState`, so one Python call is
one application of `ecg_intervalrelated` to a state, returning the result,
the post-call value of the caller's `data` argument, and the new state.
-/

namespace NK

/-- Python substring containment `needle in hay` on strings. -/
def strContainsSub (hay needle : String) : Bool :=
  hay.toList.tails.any (fun suf => needle.toList.isPrefixOf suf)

/-- A pandas `DataFrame`: an ordered list of named columns of samples. -/
structure Table where
  cols : List (String × List ℚ)
deriving DecidableEq

/-- A Python `dict` mapping feature names to scalar values (an `IntervalRecord`). -/
abbrev Rec := List (String × ℚ)

/-- First-match association-list lookup (Python `d[k]` / `k in d`). -/
def alookup {β : Type} (k : String) : List (String × β) → Option β
  | [] => none
  | p :: r => if p.1 = k then some p.2 else alookup k r

/-- The keys of an association list, in order. -/
def keysOf {β : Type} (d : List (String × β)) : List String :=
  d.map Prod.fst

/-- Python `d[k] = v`: overwrite in place when present, append otherwise. -/
def dinsert (d : Rec) (k : String) (v : ℚ) : Rec :=
  if (alookup k d).isSome then
    d.map (fun p => if p.1 = k then (k, v) else p)
  else
    d ++ [(k, v)]

/-- Python `d.update(src)`: assign every entry of `src` into `d`, in order. -/
def dupdate (d : Rec) (src : Rec) : Rec :=
  src.foldl (fun acc p => dinsert acc p.1 p.2) d

/-- `np.mean` of a column, as the exact arithmetic mean. -/
def npMean (l : List ℚ) : ℚ :=
  l.sum / l.length

/-- The column names of a table, in order (`data.columns`). -/
def Table.colNames (t : Table) : List String :=
  t.cols.map Prod.fst

/-- `[col for col in data.columns if 'ECG_Rate' in col]` — the rate-like columns. -/
def rateCols (t : Table) : List String :=
  t.colNames.filter (fun c => strContainsSub c "ECG_Rate")

/-- Errors a call can raise.  `valueError` is Python's `ValueError` (the spec's
`InvalidInputError`); `keyError` is a failed column/key lookup; `unboundLocal`
is the `UnboundLocalError` from returning a never-bound local; `external` wraps
an error raised inside the external variability routine. -/
inductive Err where
  | valueError : String → Err
  | keyError : String → Err
  | unboundLocal : Err
  | external : String → Err
deriving DecidableEq

/-- The `ValueError` message built by the adjacent string literals in the
source (both raise sites concatenate the same three fragments, with no
separating spaces, hence `input,we` and `sureyour`). -/
def rateMsg : String :=
  "NeuroKit error: ecg_intervalrelated(): Wrong input,we couldn't extract heart rate. Please make sureyour DataFrame contains an `ECG_Rate` column."

/-- `_ecg_intervalrelated_formatinput(data, output)`: raise if no rate-like
column, else look up the column named exactly `ECG_Rate` (a `KeyError` when
only a differently-named rate-like column exists) and assign its mean into
`output`. -/
def ecg_intervalrelated_formatinput (data : Table) (output : Rec) : Except Err Rec :=
  if (rateCols data).length = 0 then
    .error (.valueError rateMsg)
  else
    match alookup "ECG_Rate" data.cols with
    | none => .error (.keyError "ECG_Rate")
    | some signal => .ok (dinsert output "ECG_Rate_Mean" (npMean signal))

/-- The type of the external variability routine `ecg_hrv`: a table and a
sampling rate give one row of named float metrics, or an error. -/
abbrev HrvFn := Table → ℕ → Except Err (List (String × ℚ))

/-- `_ecg_intervalrelated_hrv(data, sampling_rate, output)`: run the external
routine and assign each returned column into `output` as a scalar. -/
def ecg_intervalrelated_hrv (hrvFn : HrvFn) (data : Table) (sampling_rate : ℕ)
    (output : Rec) : Except Err Rec :=
  match hrvFn data sampling_rate with
  | .error e => .error e
  | .ok hrv => .ok (dupdate output hrv)

/-- The two module-level mutable default dictionaries (`output={}` of
`_ecg_intervalrelated_formatinput` and of `_ecg_intervalrelated_hrv`),
which persist across calls. -/
structure DefState where
  fmtDefault : Rec
  hrvDefault : Rec
deriving DecidableEq

/-- The defaults of a fresh interpreter: both empty. -/
def initState : DefState := ⟨[], []⟩

/-- The returned `DataFrame`: `from_dict(intervals, orient="index").T` gives a
single-row table whose columns are the record's keys; `from_dict(intervals,
orient="index")` gives one row per label. -/
inductive Output where
  | singleRow : Rec → Output
  | byIndex : List (String × Rec) → Output
deriving DecidableEq

/-- The dynamic shape of the `data` argument: a `DataFrame`, a `dict` of
`DataFrame`s, or anything else (neither branch of the dispatch fires). -/
inductive InputData where
  | single : Table → InputData
  | collection : List (String × Table) → InputData
  | other : InputData
deriving DecidableEq

/-- The successful effect of `set_index('Index').drop(['Label'], axis=1)`:
remove the `Index` and `Label` columns. -/
def dropIndexLabel (t : Table) : Table :=
  ⟨(t.cols.filter (fun p => p.1 != "Index")).filter (fun p => p.1 != "Label")⟩

/-- `data[index].set_index('Index').drop(['Label'], axis=1)`: `KeyError` when
`Index` is absent, then `KeyError` when `Label` is absent from the rest. -/
def setIndexDropLabel (t : Table) : Except Err Table :=
  if (t.colNames.contains "Index") then
    if ((t.cols.filter (fun p => p.1 != "Index")).map Prod.fst).contains "Label" then
      .ok (dropIndexLabel t)
    else
      .error (.keyError "Label")
  else
    .error (.keyError "Index")

/-- The body of the `for index in data:` loop of the `dict` branch, iterated
over the remaining entries.  Returns the loop's outcome (the per-label records
in insertion order, or the first error) together with the post-loop value of
the caller's `data` mapping: each processed entry has been rebound in place to
its normalized table. -/
def collLoop (hrvFn : HrvFn) (sampling_rate : ℕ) :
    List (String × Table) → Except Err (List (String × Rec)) × List (String × Table)
  | [] => (.ok [], [])
  | (label, tbl) :: rest =>
    match setIndexDropLabel tbl with
    | .error e => (.error e, (label, tbl) :: rest)
    | .ok t2 =>
      match ecg_intervalrelated_formatinput t2 [] with
      | .error e => (.error e, (label, t2) :: rest)
      | .ok r1 =>
        match ecg_intervalrelated_hrv hrvFn t2 sampling_rate r1 with
        | .error e => (.error e, (label, t2) :: rest)
        | .ok r2 =>
          match collLoop hrvFn sampling_rate rest with
          | (.error e, rest2) => (.error e, (label, t2) :: rest2)
          | (.ok l, rest2) => (.ok ((label, r2) :: l), (label, t2) :: rest2)

instance {ε α : Type} [DecidableEq ε] [DecidableEq α] : DecidableEq (Except ε α) := fun a b =>
  match a, b with
  | .error a, .error b => decidable_of_iff (a = b) (by simp)
  | .ok a, .ok b => decidable_of_iff (a = b) (by simp)
  | .error _, .ok _ => isFalse (by simp)
  | .ok _, .error _ => isFalse (by simp)

/-- What one call returns to its caller: the result (or raised error), the
post-call value of the caller's `data` argument, and the post-call default
dictionaries. -/
structure CallResult where
  result : Except Err Output
  dataAfter : InputData
  stAfter : DefState
deriving DecidableEq

/-- `ecg_intervalrelated(data, sampling_rate)`.  The single-table branch calls
both helpers WITHOUT an `output` argument, so they receive and mutate the
module-level default dictionaries; the `dict` branch passes fresh explicit
dictionaries and rebinds `data[index]` to the normalized table.  Any other
input shape falls through both branches and hits `return ecg_intervals` with
the local unbound. -/
def ecg_intervalrelated (hrvFn : HrvFn) (data : InputData) (sampling_rate : ℕ)
    (st : DefState) : CallResult :=
  match data with
  | .single df =>
    if (rateCols df).length = 1 then
      match ecg_intervalrelated_formatinput df st.fmtDefault with
      | .error e => ⟨.error e, .single df, st⟩
      | .ok fmtD =>
        let intervals1 := dupdate [] fmtD
        match ecg_intervalrelated_hrv hrvFn df sampling_rate st.hrvDefault with
        | .error e => ⟨.error e, .single df, ⟨fmtD, st.hrvDefault⟩⟩
        | .ok hrvD =>
          ⟨.ok (.singleRow (dupdate intervals1 hrvD)), .single df, ⟨fmtD, hrvD⟩⟩
    else
      ⟨.error (.valueError rateMsg), .single df, st⟩
  | .collection entries =>
    match collLoop hrvFn sampling_rate entries with
    | (.error e, entries2) => ⟨.error e, .collection entries2, st⟩
    | (.ok rows, entries2) => ⟨.ok (.byIndex rows), .collection entries2, st⟩
  | .other => ⟨.error .unboundLocal, .other, st⟩

/-- The analysis the loop body performs on one label's table (normalize, rate,
HRV), in isolation — the "individual single-table analysis" of one label. -/
def analyzeOneLabel (hrvFn : HrvFn) (sampling_rate : ℕ) (tbl : Table) : Except Err Rec :=
  match setIndexDropLabel tbl with
  | .error e => .error e
  | .ok t2 =>
    match ecg_intervalrelated_formatinput t2 [] with
    | .error e => .error e
    | .ok r1 => ecg_intervalrelated_hrv hrvFn t2 sampling_rate r1

/-- The row index of a produced table (`from_dict(..., orient="index")` keys;
a transposed single-record table has the default integer index `[0]`). -/
def Output.rowIndexOf : Output → List String
  | .singleRow _ => ["0"]
  | .byIndex rows => rows.map Prod.fst

/-- Order-preserving union of two key lists (pandas column-union order). -/
def listUnion (xs ys : List String) : List String :=
  xs ++ ys.filter (fun y => !(xs.contains y))

/-- The columns of a produced table: for `orient="index"` construction, the
union of the row records' keys in order of first appearance. -/
def Output.columnsOf : Output → List String
  | .singleRow r => keysOf r
  | .byIndex rows => rows.foldl (fun acc p => listUnion acc (keysOf p.2)) []

/-- The cell of a produced table at a row label and column; `none` is the
missing-value marker (`NaN`) filled in by `orient="index"` construction. -/
def Output.cell : Output → String → String → Option ℚ
  | .singleRow r, _, c => alookup c r
  | .byIndex rows, lab, c => (alookup lab rows).bind (fun r => alookup c r)

/-- The column-name sets of the two results of a call, ignoring the scalar
values: the keys of the single row, or nothing for a raised error. -/
def resultKeys : Except Err Output → List String
  | .ok o => o.columnsOf
  | .error _ => []

/-- Every entry of `d` keyed `k` carries the value `v`. -/
def allAt (d : Rec) (k : String) (v : ℚ) : Prop :=
  ∀ p ∈ d, p.1 = k → p.2 = v

/-- Modelled from the spec: the external variability routine `ecg_hrv` (its
definition lives outside this core) returns a one-row table of named float
metrics; this instance always returns the single metric `HRV_MeanNN`. -/
def hrvStub : HrvFn := fun _ _ => .ok [("HRV_MeanNN", (950 : ℚ))]

/-- Modelled from the spec: a variability routine whose metric column set
depends on the analyzed table (the spec allows this: a too-short window can
yield fewer metrics).  Tables carrying a marker column `M1` yield the metric
`HRV_A`, all others the metric `HRV_B`. -/
def hrvStubLeak : HrvFn := fun t _ =>
  if t.colNames.contains "M1" then .ok [("HRV_A", (1 : ℚ))] else .ok [("HRV_B", (2 : ℚ))]

/-- Modelled from the spec: a variability routine that returns no metric at
all for a window carrying the marker column `Short` (a too-short window) and
the single metric `HRV_MeanNN` otherwise. -/
def hrvStubWindow : HrvFn := fun t _ =>
  if t.colNames.contains "Short" then .ok [] else .ok [("HRV_MeanNN", (900 : ℚ))]

/-- Modelled from the spec: a variability routine that raises an
insufficient-samples error on a window carrying the marker column `Short` and
returns the single metric `HRV_MeanNN` otherwise. -/
def hrvStubFail : HrvFn := fun t _ =>
  if t.colNames.contains "Short" then .error (.external "insufficient samples")
  else .ok [("HRV_MeanNN", (900 : ℚ))]

/-- A plain single table whose only column is `ECG_Rate` with four samples. -/
def tRate4 : Table := ⟨[("ECG_Rate", [60, 62, 64, 66])]⟩

/-- A single table whose only (rate-like) column is named `ECG_Rate_Raw`. -/
def tRaw : Table := ⟨[("ECG_Rate_Raw", [60])]⟩

/-- A well-formed epoch table: `Index`, `Label` and an exact `ECG_Rate`. -/
def tEpoch : Table := ⟨[("Index", [0]), ("Label", [1]), ("ECG_Rate", [60])]⟩

/-- An epoch table carrying two rate-like columns. -/
def tTwoRate : Table :=
  ⟨[("Index", [0]), ("Label", [0]), ("ECG_Rate", [80]), ("ECG_Rate_Raw", [81])]⟩

/-- An epoch table whose only rate-like column is named `ECG_Rate_Raw`. -/
def tRawEpoch : Table := ⟨[("Index", [0]), ("Label", [0]), ("ECG_Rate_Raw", [60])]⟩

/-- An epoch table with no rate-like column at all. -/
def tNoRate : Table := ⟨[("Index", [0]), ("Label", [0])]⟩

/-- An epoch table additionally carrying the `Short` marker column. -/
def tShortEpoch : Table :=
  ⟨[("Index", [0]), ("Label", [0]), ("ECG_Rate", [64]), ("Short", [1])]⟩

/-- A single table carrying `ECG_Rate` and the `M1` marker column. -/
def tM1 : Table := ⟨[("ECG_Rate", [70]), ("M1", [0])]⟩

/-- A single table carrying only `ECG_Rate`. -/
def tPlain : Table := ⟨[("ECG_Rate", [72])]⟩

theorem dupdate_nil (d : Rec) : dupdate d [] = d := rfl

theorem dupdate_cons (d : Rec) (p : String × ℚ) (T : Rec) :
    dupdate d (p :: T) = dupdate (dinsert d p.1 p.2) T := rfl

theorem alookup_isSome {β : Type} (k : String) (d : List (String × β)) :
    (alookup k d).isSome = true ↔ k ∈ keysOf d := by
  induction d with
  | nil => simp [alookup, keysOf]
  | cons p r ih =>
    by_cases hp : p.1 = k
    · simp [alookup, hp, keysOf]
    · simp only [alookup, if_neg hp, keysOf, List.map_cons, List.mem_cons, ih]
      constructor
      · exact fun h => Or.inr h
      · rintro (h | h)
        · exact absurd h.symm hp
        · exact h

theorem keys_map_overwrite (d : Rec) (k : String) (v : ℚ) :
    keysOf (d.map fun p => if p.1 = k then (k, v) else p) = keysOf d := by
  induction d with
  | nil => rfl
  | cons p r ih =>
    simp only [keysOf, List.map_cons] at *
    by_cases hp : p.1 = k
    · rw [if_pos hp, ih]; simp [hp]
    · rw [if_neg hp, ih]

theorem mem_keys_dinsert (k' k : String) (v : ℚ) (d : Rec) :
    k' ∈ keysOf (dinsert d k v) ↔ k' ∈ keysOf d ∨ k' = k := by
  unfold dinsert
  split
  · next h =>
    rw [keys_map_overwrite]
    constructor
    · exact fun hm => Or.inl hm
    · rintro (hm | rfl)
      · exact hm
      · exact (alookup_isSome k' d).mp h
  · simp [keysOf]

theorem allAt_dinsert_self (d : Rec) (k : String) (v : ℚ) :
    allAt (dinsert d k v) k v := by
  unfold dinsert
  split
  · intro p hp hpk
    obtain ⟨q, hq, rfl⟩ := List.mem_map.mp hp
    by_cases hq1 : q.1 = k
    · simp [if_pos hq1]
    · rw [if_neg hq1] at hpk ⊢
      exact absurd hpk hq1
  · next h =>
    intro p hp hpk
    rcases List.mem_append.mp hp with hd | hone
    · exact absurd ((alookup_isSome k d).mpr (List.mem_map.mpr ⟨p, hd, hpk⟩)) h
    · rw [List.mem_singleton.mp hone]

theorem allAt_dinsert_of_ne (d : Rec) (k k' : String) (v v' : ℚ)
    (hne : k ≠ k') (ha : allAt d k v) : allAt (dinsert d k' v') k v := by
  unfold dinsert
  split
  · intro p hp hpk
    obtain ⟨q, hq, rfl⟩ := List.mem_map.mp hp
    by_cases hq1 : q.1 = k'
    · rw [if_pos hq1] at hpk ⊢
      simp only at hpk
      exact absurd hpk (Ne.symm hne)
    · rw [if_neg hq1] at hpk ⊢
      exact ha q hq hpk
  · intro p hp hpk
    rcases List.mem_append.mp hp with hd | hone
    · exact ha p hd hpk
    · rw [List.mem_singleton.mp hone] at hpk
      simp only at hpk
      exact absurd hpk (Ne.symm hne)

theorem dinsert_eq_self (d : Rec) (k : String) (v : ℚ)
    (hm : k ∈ keysOf d) (ha : allAt d k v) : dinsert d k v = d := by
  unfold dinsert
  rw [if_pos ((alookup_isSome k d).mpr hm)]
  have hcongr : ∀ p ∈ d, (if p.1 = k then (k, v) else p) = id p := by
    intro p hp
    by_cases h : p.1 = k
    · rw [if_pos h, id_eq, ← h, ← ha p hp h]
    · rw [if_neg h, id_eq]
  rw [List.map_congr_left hcongr, List.map_id]

theorem alookup_map_overwrite (d : Rec) (k k' : String) (v' : ℚ) (h : k ≠ k') :
    alookup k (d.map fun p => if p.1 = k' then (k', v') else p) = alookup k d := by
  induction d with
  | nil => rfl
  | cons p r ih =>
    by_cases hp : p.1 = k'
    · simp only [List.map_cons, if_pos hp, alookup]
      rw [if_neg (show ¬((k', v') : String × ℚ).1 = k by simpa using Ne.symm h),
        if_neg (show ¬p.1 = k from fun hk => h (hk.symm.trans hp))]
      exact ih
    · simp only [List.map_cons, if_neg hp, alookup]
      split
      · rfl
      · exact ih

theorem alookup_append_single (d : Rec) (k k' : String) (v' : ℚ) (h : k ≠ k') :
    alookup k (d ++ [(k', v')]) = alookup k d := by
  induction d with
  | nil => simp [alookup, if_neg (Ne.symm h)]
  | cons p r ih =>
    simp only [List.cons_append, alookup]
    split
    · rfl
    · exact ih

theorem alookup_dinsert_ne (d : Rec) (k k' : String) (v' : ℚ) (h : k ≠ k') :
    alookup k (dinsert d k' v') = alookup k d := by
  unfold dinsert
  split
  · exact alookup_map_overwrite d k k' v' h
  · exact alookup_append_single d k k' v' h

theorem alookup_of_allAt (d : Rec) (k : String) (v : ℚ)
    (hm : k ∈ keysOf d) (ha : allAt d k v) : alookup k d = some v := by
  induction d with
  | nil => simp [keysOf] at hm
  | cons p r ih =>
    by_cases hp : p.1 = k
    · rw [alookup, if_pos hp, ha p (List.mem_cons_self p r) hp]
    · rw [alookup, if_neg hp]
      rcases List.mem_cons.mp hm with h | h
      · exact absurd h.symm hp
      · exact ih h (fun q hq hqk => ha q (List.mem_cons_of_mem p hq) hqk)

theorem mem_keys_dupdate_left (d src : Rec) (k : String)
    (hm : k ∈ keysOf d) : k ∈ keysOf (dupdate d src) := by
  induction src generalizing d with
  | nil => exact hm
  | cons p T ih =>
    rw [dupdate_cons]
    exact ih _ ((mem_keys_dinsert k p.1 p.2 d).mpr (Or.inl hm))

theorem mem_keys_dupdate_right (d src : Rec) (k : String)
    (hm : k ∈ keysOf src) : k ∈ keysOf (dupdate d src) := by
  induction src generalizing d with
  | nil => simp [keysOf] at hm
  | cons p T ih =>
    rw [dupdate_cons]
    rcases List.mem_cons.mp hm with h | h
    · exact mem_keys_dupdate_left _ T k
        ((mem_keys_dinsert k p.1 p.2 d).mpr (Or.inr h))
    · exact ih _ h

theorem mem_keys_dupdate (d src : Rec) (k : String)
    (hm : k ∈ keysOf (dupdate d src)) : k ∈ keysOf d ∨ k ∈ keysOf src := by
  induction src generalizing d with
  | nil => exact Or.inl hm
  | cons p T ih =>
    rw [dupdate_cons] at hm
    rcases ih _ hm with h | h
    · rcases (mem_keys_dinsert k p.1 p.2 d).mp h with h2 | h2
      · exact Or.inl h2
      · exact Or.inr (by simp [keysOf, h2])
    · exact Or.inr (List.mem_cons_of_mem _ (by simpa [keysOf] using h))

theorem alookup_dupdate_not_mem (d src : Rec) (k : String)
    (h : k ∉ keysOf src) : alookup k (dupdate d src) = alookup k d := by
  induction src generalizing d with
  | nil => rfl
  | cons p T ih =>
    rw [dupdate_cons]
    have hk : k ≠ p.1 := fun hk => h (by simp [keysOf, hk])
    rw [ih _ (fun hm => h (List.mem_cons_of_mem _ hm)),
      alookup_dinsert_ne d k p.1 p.2 hk]

theorem allAt_dupdate (d src : Rec) (k : String) (v : ℚ)
    (hd : allAt d k v) (hsrc : allAt src k v) : allAt (dupdate d src) k v := by
  induction src generalizing d with
  | nil => exact hd
  | cons p T ih =>
    rw [dupdate_cons]
    refine ih _ ?_ (fun q hq hqk => hsrc q (List.mem_cons_of_mem p hq) hqk)
    by_cases hp : p.1 = k
    · have : p.2 = v := hsrc p (List.mem_cons_self p T) hp
      rw [← hp, ← this] at *
      exact allAt_dinsert_self d p.1 p.2
    · exact allAt_dinsert_of_ne d k p.1 v p.2 (fun hk => hp hk.symm) hd

theorem keep_dupdate_not_mem (d src : Rec) (k : String) (v : ℚ)
    (h : k ∉ keysOf src) (hm : k ∈ keysOf d) (ha : allAt d k v) :
    k ∈ keysOf (dupdate d src) ∧ allAt (dupdate d src) k v := by
  induction src generalizing d with
  | nil => exact ⟨hm, ha⟩
  | cons p T ih =>
    rw [dupdate_cons]
    have hk : k ≠ p.1 := fun hk => h (by simp [keysOf, hk])
    exact ih _ (fun hmem => h (List.mem_cons_of_mem _ hmem))
      ((mem_keys_dinsert k p.1 p.2 d).mpr (Or.inl hm))
      (allAt_dinsert_of_ne d k p.1 v p.2 hk ha)

theorem dupdate_eq_self (d src : Rec)
    (h : ∀ p ∈ src, p.1 ∈ keysOf d ∧ allAt d p.1 p.2) : dupdate d src = d := by
  induction src with
  | nil => rfl
  | cons p T ih =>
    rw [dupdate_cons,
      dinsert_eq_self d p.1 p.2 (h p (List.mem_cons_self p T)).1
        (h p (List.mem_cons_self p T)).2]
    exact ih (fun q hq => h q (List.mem_cons_of_mem p hq))

theorem dupdate_fix (d src : Rec) (hnd : (keysOf src).Nodup) :
    ∀ p ∈ src, p.1 ∈ keysOf (dupdate d src) ∧ allAt (dupdate d src) p.1 p.2 := by
  induction src generalizing d with
  | nil => intro p hp; simp at hp
  | cons q T ih =>
    intro p hp
    rw [dupdate_cons]
    rcases List.mem_cons.mp hp with rfl | hmem
    · have hq : p.1 ∉ keysOf T := by
        have := hnd
        simp only [keysOf, List.map_cons, List.nodup_cons] at this
        exact this.1
      exact keep_dupdate_not_mem _ T p.1 p.2 hq
        ((mem_keys_dinsert p.1 p.1 p.2 d).mpr (Or.inr rfl))
        (allAt_dinsert_self d p.1 p.2)
    · have hndT : (keysOf T).Nodup := by
        have := hnd
        simp only [keysOf, List.map_cons, List.nodup_cons] at this
        exact this.2
      exact ih _ hndT p hmem

theorem dupdate_idem (d src : Rec) (hnd : (keysOf src).Nodup) :
    dupdate (dupdate d src) src = dupdate d src :=
  dupdate_eq_self _ src (dupdate_fix d src hnd)

theorem dinsert_idem (d : Rec) (k : String) (v : ℚ) :
    dinsert (dinsert d k v) k v = dinsert d k v :=
  dinsert_eq_self _ k v ((mem_keys_dinsert k k v d).mpr (Or.inr rfl))
    (allAt_dinsert_self d k v)

theorem alookup_some_of_mem_keys {β : Type} (k : String) (d : List (String × β))
    (hm : k ∈ keysOf d) : ∃ v, alookup k d = some v := by
  have := (alookup_isSome k d).mpr hm
  exact Option.isSome_iff_exists.mp this

theorem mem_colNames_of_mem_rateCols (t : Table) (c : String)
    (hc : c ∈ rateCols t) : c ∈ t.colNames :=
  (List.mem_filter.mp hc).1

theorem colNames_dropIndexLabel_subset (t : Table) (c : String)
    (hc : c ∈ (dropIndexLabel t).colNames) : c ∈ t.colNames := by
  simp only [dropIndexLabel, Table.colNames, List.mem_map] at hc ⊢
  obtain ⟨p, hp, rfl⟩ := hc
  exact ⟨p, (List.mem_filter.mp (List.mem_filter.mp hp).1).1, rfl⟩

theorem rateCols_dropIndexLabel_nil (t : Table)
    (h : (rateCols t).length = 0) : rateCols (dropIndexLabel t) = [] := by
  rw [List.length_eq_zero] at h
  rw [List.eq_nil_iff_forall_not_mem]
  intro c hc
  have hsub : c ∈ rateCols t := by
    have h1 := List.mem_filter.mp hc
    exact List.mem_filter.mpr ⟨colNames_dropIndexLabel_subset t c h1.1, h1.2⟩
  rw [h] at hsub
  simp at hsub

theorem setIndexDropLabel_ok (t : Table)
    (hI : "Index" ∈ t.colNames) (hL : "Label" ∈ t.colNames) :
    setIndexDropLabel t = .ok (dropIndexLabel t) := by
  unfold setIndexDropLabel
  rw [if_pos (List.elem_iff.mpr hI)]
  have hL2 : "Label" ∈ (t.cols.filter (fun p => p.1 != "Index")).map Prod.fst := by
    simp only [Table.colNames, List.mem_map] at hL
    obtain ⟨p, hp, hpl⟩ := hL
    refine List.mem_map.mpr ⟨p, List.mem_filter.mpr ⟨hp, ?_⟩, hpl⟩
    rw [hpl]
    decide
  rw [if_pos (List.elem_iff.mpr hL2)]

theorem setIndexDropLabel_ok_inv (t t2 : Table)
    (h : setIndexDropLabel t = .ok t2) : t2 = dropIndexLabel t := by
  unfold setIndexDropLabel at h
  split at h
  · split at h
    · cases h; rfl
    · cases h
  · cases h

theorem collLoop_cons_fail (hrvFn : HrvFn) (sr : ℕ) (label : String) (tbl : Table)
    (rest : List (String × Table)) (e : Err)
    (h : analyzeOneLabel hrvFn sr tbl = .error e) :
    (collLoop hrvFn sr ((label, tbl) :: rest)).1 = .error e := by
  unfold analyzeOneLabel at h
  unfold collLoop
  cases h1 : setIndexDropLabel tbl with
  | error e1 => simp only [h1] at h ⊢; cases h; rfl
  | ok t2 =>
    simp only [h1] at h ⊢
    cases h2 : ecg_intervalrelated_formatinput t2 [] with
    | error e1 => simp only [h2] at h ⊢; cases h; rfl
    | ok r1 =>
      simp only [h2] at h ⊢
      cases h3 : ecg_intervalrelated_hrv hrvFn t2 sr r1 with
      | error e1 => simp only [h3] at h ⊢; cases h; rfl
      | ok r2 => simp only [h3] at h; cases h

theorem collLoop_cons_ok (hrvFn : HrvFn) (sr : ℕ) (label : String) (tbl : Table)
    (rest : List (String × Table)) (r2 : Rec)
    (h : analyzeOneLabel hrvFn sr tbl = .ok r2) :
    (collLoop hrvFn sr ((label, tbl) :: rest)).1 =
      match (collLoop hrvFn sr rest).1 with
      | .error e => .error e
      | .ok l => .ok ((label, r2) :: l) := by
  unfold analyzeOneLabel at h
  simp only [collLoop]
  cases h1 : setIndexDropLabel tbl with
  | error e1 => simp only [h1] at h; cases h
  | ok t2 =>
    simp only [h1] at h ⊢
    cases h2 : ecg_intervalrelated_formatinput t2 [] with
    | error e1 => simp only [h2] at h; cases h
    | ok r1 =>
      simp only [h2] at h ⊢
      cases h3 : ecg_intervalrelated_hrv hrvFn t2 sr r1 with
      | error e1 => simp only [h3] at h; cases h
      | ok r2b =>
        simp only [h3] at h ⊢
        cases h
        cases h4 : collLoop hrvFn sr rest with
        | mk res rest2 => cases res <;> simp

theorem run_single_guard_ne (hrvFn : HrvFn) (t : Table) (sr : ℕ) (st : DefState)
    (hlen : ¬(rateCols t).length = 1) :
    ecg_intervalrelated hrvFn (.single t) sr st =
      ⟨.error (.valueError rateMsg), .single t, st⟩ := by
  simp only [ecg_intervalrelated, if_neg hlen]

theorem run_single_fmt_err (hrvFn : HrvFn) (t : Table) (sr : ℕ) (st : DefState) (e : Err)
    (hlen : (rateCols t).length = 1)
    (hf : ecg_intervalrelated_formatinput t st.fmtDefault = .error e) :
    ecg_intervalrelated hrvFn (.single t) sr st = ⟨.error e, .single t, st⟩ := by
  simp only [ecg_intervalrelated, if_pos hlen, hf]

theorem run_single_hrv_err (hrvFn : HrvFn) (t : Table) (sr : ℕ) (st : DefState)
    (fmtD : Rec) (e : Err)
    (hlen : (rateCols t).length = 1)
    (hf : ecg_intervalrelated_formatinput t st.fmtDefault = .ok fmtD)
    (hh : hrvFn t sr = .error e) :
    ecg_intervalrelated hrvFn (.single t) sr st =
      ⟨.error e, .single t, ⟨fmtD, st.hrvDefault⟩⟩ := by
  simp only [ecg_intervalrelated, if_pos hlen, hf, ecg_intervalrelated_hrv, hh]

theorem run_single_ok (hrvFn : HrvFn) (t : Table) (sr : ℕ) (st : DefState)
    (fmtD : Rec) (H : List (String × ℚ))
    (hlen : (rateCols t).length = 1)
    (hf : ecg_intervalrelated_formatinput t st.fmtDefault = .ok fmtD)
    (hh : hrvFn t sr = .ok H) :
    ecg_intervalrelated hrvFn (.single t) sr st =
      ⟨.ok (.singleRow (dupdate (dupdate [] fmtD) (dupdate st.hrvDefault H))),
        .single t, ⟨fmtD, dupdate st.hrvDefault H⟩⟩ := by
  simp only [ecg_intervalrelated, if_pos hlen, hf, ecg_intervalrelated_hrv, hh]

theorem result_collection (hrvFn : HrvFn) (sr : ℕ) (st : DefState)
    (entries : List (String × Table)) :
    (ecg_intervalrelated hrvFn (.collection entries) sr st).result =
      Except.map Output.byIndex (collLoop hrvFn sr entries).1 := by
  simp only [ecg_intervalrelated]
  rcases hcl : collLoop hrvFn sr entries with ⟨res, es⟩
  cases res <;> simp [Except.map]

theorem formatinput_ok_inv (t : Table) (out r : Rec)
    (h : ecg_intervalrelated_formatinput t out = .ok r) :
    ¬(rateCols t).length = 0 ∧
      ∃ signal, alookup "ECG_Rate" t.cols = some signal ∧
        r = dinsert out "ECG_Rate_Mean" (npMean signal) := by
  unfold ecg_intervalrelated_formatinput at h
  split at h
  · cases h
  · next hg =>
    refine ⟨hg, ?_⟩
    cases hs : alookup "ECG_Rate" t.cols with
    | none => rw [hs] at h; cases h
    | some signal =>
      rw [hs] at h
      cases h
      exact ⟨signal, rfl, rfl⟩

theorem formatinput_err_out_irrel (t : Table) (out out2 : Rec) (e : Err)
    (h : ecg_intervalrelated_formatinput t out = .error e) :
    ecg_intervalrelated_formatinput t out2 = .error e := by
  unfold ecg_intervalrelated_formatinput at h ⊢
  split at h
  · next hg => rw [if_pos hg]; exact h
  · next hg =>
    rw [if_neg hg]
    cases hs : alookup "ECG_Rate" t.cols with
    | none => rw [hs] at h; exact h
    | some signal => rw [hs] at h; cases h

theorem formatinput_ok_of_exact (t : Table) (out : Rec) (signal : List ℚ)
    (hlen : ¬(rateCols t).length = 0)
    (hsig : alookup "ECG_Rate" t.cols = some signal) :
    ecg_intervalrelated_formatinput t out =
      .ok (dinsert out "ECG_Rate_Mean" (npMean signal)) := by
  unfold ecg_intervalrelated_formatinput
  rw [if_neg hlen, hsig]

theorem except_isOk_elim {ε α : Type} (x : Except ε α) (h : x.isOk = true) :
    ∃ r, x = .ok r := by
  cases x with
  | error e => simp [Except.isOk, Except.toBool] at h
  | ok r => exact ⟨r, rfl⟩

theorem alookup_eq_none_of_not_mem {β : Type} (k : String) (d : List (String × β))
    (h : k ∉ keysOf d) : alookup k d = none := by
  cases hs : alookup k d with
  | none => rfl
  | some v =>
    exact absurd ((alookup_isSome k d).mp (by rw [hs]; rfl)) h

/-- C10: for an input that is neither a single table nor a collection, the
dispatch binds no result and the function raises (`UnboundLocalError` at
`return ecg_intervals`); it never returns a value. -/
theorem unrecognized_shape_errors (hrvFn : HrvFn) (sr : ℕ) (st : DefState) :
    (ecg_intervalrelated hrvFn .other sr st).result = .error .unboundLocal := rfl

/-- C9: when the entry dispatch has already established exactly one rate-like
column, the zero-matching-columns branch inside
`_ecg_intervalrelated_formatinput` cannot fire: the helper never produces the
`ValueError` of that branch (its only remaining failure is the exact-name
`KeyError` lookup), so the duplicated zero-check is redundant in the
single-table path. -/
theorem duplicate_check_redundant (t : Table) (out : Rec) (m : String)
    (h1 : (rateCols t).length = 1) :
    ecg_intervalrelated_formatinput t out ≠ .error (.valueError m) := by
  intro h
  unfold ecg_intervalrelated_formatinput at h
  rw [if_neg (by omega)] at h
  cases hs : alookup "ECG_Rate" t.cols with
  | none => rw [hs] at h; simp at h
  | some s => rw [hs] at h; simp at h

/-- Witness for C9 at a concrete table with exactly one rate-like column. -/
theorem duplicate_check_redundant_witness :
    (rateCols tPlain).length = 1 ∧
      ecg_intervalrelated_formatinput tPlain [] ≠ .error (.valueError rateMsg) :=
  ⟨by decide, duplicate_check_redundant tPlain [] rateMsg (by decide)⟩

/-- C2 (amended): a SINGLE-table input with two or more rate-like columns is
rejected with the `ValueError` (the spec's `InvalidInputError`).  The
collection path performs no such multiplicity check (see the counterexample
theorem). -/
theorem multiple_rate_columns_single_rejected (hrvFn : HrvFn) (t : Table)
    (sr : ℕ) (st : DefState) (h2 : 2 ≤ (rateCols t).length) :
    (ecg_intervalrelated hrvFn (.single t) sr st).result = .error (.valueError rateMsg) := by
  rw [run_single_guard_ne hrvFn t sr st (by omega)]

/-- Witness for C2's amended theorem at a concrete two-rate-column table. -/
theorem multiple_rate_columns_single_rejected_witness :
    2 ≤ (rateCols tTwoRate).length ∧
      (ecg_intervalrelated hrvStub (.single tTwoRate) 100 initState).result
        = .error (.valueError rateMsg) :=
  ⟨by decide, multiple_rate_columns_single_rejected hrvStub tTwoRate 100 initState (by decide)⟩

/-- Counterexample to C2 as stated: a collection whose (only) table carries
TWO rate-like columns (`ECG_Rate` and `ECG_Rate_Raw`) is not rejected — the
call succeeds and returns a row for the label, because the dict branch only
ever checks (inside the helper) that the count is nonzero. -/
theorem multiple_rate_columns_collection_accepted :
    2 ≤ (rateCols tTwoRate).length ∧
      (ecg_intervalrelated hrvStub (.collection [("e", tTwoRate)]) 100 initState).result
        = .ok (.byIndex [("e", [("ECG_Rate_Mean", npMean [80]), ("HRV_MeanNN", 950)])]) :=
  ⟨by decide, rfl⟩

/-- Counterexample to C1 as stated: a single table whose unique rate-like
column is named `ECG_Rate_Raw` (so it satisfies the claim's premise of exactly
one column containing the substring `ECG_Rate`) makes the call raise a
`KeyError` on the exact-name lookup `data["ECG_Rate"]`; no table is returned,
so no `ECG_Rate_Mean` entry equals the column's mean. -/
theorem ecg_rate_mean_substring_counterexample :
    (rateCols tRaw).length = 1 ∧
      (ecg_intervalrelated hrvStub (.single tRaw) 1000 initState).result
        = .error (.keyError "ECG_Rate") ∧
      ¬∃ out, (ecg_intervalrelated hrvStub (.single tRaw) 1000 initState).result = .ok out := by
  refine ⟨by decide, rfl, ?_⟩
  rintro ⟨out, hout⟩
  rw [show (ecg_intervalrelated hrvStub (.single tRaw) 1000 initState).result
      = .error (.keyError "ECG_Rate") from rfl] at hout
  cases hout

/-- C1 (amended): when the unique rate-like column is named exactly
`ECG_Rate` (and the variability routine and the accumulated default state do
not themselves carry an `ECG_Rate_Mean` column), the returned single-row
table's `ECG_Rate_Mean` entry is the arithmetic mean of that column.  The
value `npMean signal` depends only on the table's column, not on `sr` or on
`st`, which is the claimed samplingRate-independence. -/
theorem ecg_rate_mean_of_exact_column (hrvFn : HrvFn) (t : Table) (sr : ℕ)
    (st : DefState) (H : List (String × ℚ))
    (hrc : rateCols t = ["ECG_Rate"])
    (hH : hrvFn t sr = .ok H)
    (hkH : "ECG_Rate_Mean" ∉ keysOf H)
    (hkst : "ECG_Rate_Mean" ∉ keysOf st.hrvDefault) :
    ∃ signal out,
      alookup "ECG_Rate" t.cols = some signal ∧
      (ecg_intervalrelated hrvFn (.single t) sr st).result = .ok (.singleRow out) ∧
      alookup "ECG_Rate_Mean" out = some (npMean signal) := by
  have hlen : (rateCols t).length = 1 := by rw [hrc]; rfl
  have hmem : "ECG_Rate" ∈ keysOf t.cols := by
    have hm : "ECG_Rate" ∈ rateCols t := by rw [hrc]; exact List.mem_singleton_self _
    exact mem_colNames_of_mem_rateCols t _ hm
  obtain ⟨signal, hsig⟩ := alookup_some_of_mem_keys "ECG_Rate" t.cols hmem
  have hf := formatinput_ok_of_exact t st.fmtDefault signal (by omega) hsig
  rw [run_single_ok hrvFn t sr st _ H hlen hf hH]
  refine ⟨signal, _, hsig, rfl, ?_⟩
  have hnot : "ECG_Rate_Mean" ∉ keysOf (dupdate st.hrvDefault H) := by
    intro hmem2
    rcases mem_keys_dupdate st.hrvDefault H _ hmem2 with h | h
    · exact hkst h
    · exact hkH h
  rw [alookup_dupdate_not_mem _ _ _ hnot]
  have hall : allAt (dupdate [] (dinsert st.fmtDefault "ECG_Rate_Mean" (npMean signal)))
      "ECG_Rate_Mean" (npMean signal) :=
    allAt_dupdate [] _ _ _ (fun p hp _ => absurd hp (List.not_mem_nil p))
      (allAt_dinsert_self st.fmtDefault _ _)
  have hmem3 : "ECG_Rate_Mean" ∈
      keysOf (dupdate [] (dinsert st.fmtDefault "ECG_Rate_Mean" (npMean signal))) :=
    mem_keys_dupdate_right [] _ _
      ((mem_keys_dinsert _ _ _ st.fmtDefault).mpr (Or.inr rfl))
  exact alookup_of_allAt _ _ _ hmem3 hall

/-- Witness for C1's amended theorem: the spec's concrete scenario, a table
with `ECG_Rate = [60, 62, 64, 66]`, whose mean is 63. -/
theorem ecg_rate_mean_of_exact_column_witness :
    (rateCols tRate4 = ["ECG_Rate"] ∧ npMean [60, 62, 64, 66] = 63) ∧
      ∃ signal out,
        alookup "ECG_Rate" tRate4.cols = some signal ∧
        (ecg_intervalrelated hrvStub (.single tRate4) 100 initState).result
          = .ok (.singleRow out) ∧
        alookup "ECG_Rate_Mean" out = some (npMean signal) :=
  ⟨⟨by decide, by norm_num [npMean, List.sum_cons, List.sum_nil]⟩,
    ecg_rate_mean_of_exact_column hrvStub tRate4 100 initState [("HRV_MeanNN", 950)]
      (by decide) rfl (by decide) (by decide)⟩

/-- C5: the module-level mutable default dictionaries leak state between
calls.  A fresh-state call on `tPlain` yields the columns
`[ECG_Rate_Mean, HRV_B]`; the same call made after an unrelated call on `tM1`
(whose variability metrics are `[HRV_A]`) yields
`[ECG_Rate_Mean, HRV_A, HRV_B]` — the stale `HRV_A` column of the other
table's analysis leaks in, so equal arguments do not give equal results. -/
theorem mutable_default_state_leak :
    resultKeys (ecg_intervalrelated hrvStubLeak (.single tPlain) 100 initState).result
        = ["ECG_Rate_Mean", "HRV_B"] ∧
      resultKeys (ecg_intervalrelated hrvStubLeak (.single tPlain) 100
          (ecg_intervalrelated hrvStubLeak (.single tM1) 100 initState).stAfter).result
        = ["ECG_Rate_Mean", "HRV_A", "HRV_B"] ∧
      (ecg_intervalrelated hrvStubLeak (.single tPlain) 100
          (ecg_intervalrelated hrvStubLeak (.single tM1) 100 initState).stAfter).result
        ≠ (ecg_intervalrelated hrvStubLeak (.single tPlain) 100 initState).result := by
  refine ⟨rfl, rfl, ?_⟩
  intro h
  exact absurd (congrArg resultKeys h) (by decide)

theorem collLoop_snd_ok (hrvFn : HrvFn) (sr : ℕ) (entries : List (String × Table))
    (l : List (String × Rec)) (h : (collLoop hrvFn sr entries).1 = .ok l) :
    (collLoop hrvFn sr entries).2 = entries.map (fun p => (p.1, dropIndexLabel p.2)) := by
  induction entries generalizing l with
  | nil => rfl
  | cons q rest ih =>
    obtain ⟨label, tbl⟩ := q
    simp only [collLoop] at h ⊢
    cases h1 : setIndexDropLabel tbl with
    | error e => simp only [h1] at h; cases h
    | ok t2 =>
      simp only [h1] at h ⊢
      cases h2 : ecg_intervalrelated_formatinput t2 [] with
      | error e => simp only [h2] at h; cases h
      | ok r1 =>
        simp only [h2] at h ⊢
        cases h3 : ecg_intervalrelated_hrv hrvFn t2 sr r1 with
        | error e => simp only [h3] at h; cases h
        | ok r2 =>
          simp only [h3] at h ⊢
          cases h4 : collLoop hrvFn sr rest with
          | mk res rest2 =>
            cases res with
            | error e => simp only [h4] at h; cases h
            | ok l2 =>
              simp only [h4] at h ⊢
              have ht2 := setIndexDropLabel_ok_inv tbl t2 h1
              have hrest := ih l2 (by rw [h4])
              rw [h4] at hrest
              simp only at hrest
              simp only [List.map_cons]
              rw [ht2, hrest]

theorem dataAfter_collection (hrvFn : HrvFn) (sr : ℕ) (st : DefState)
    (entries : List (String × Table)) :
    (ecg_intervalrelated hrvFn (.collection entries) sr st).dataAfter =
      .collection (collLoop hrvFn sr entries).2 := by
  simp only [ecg_intervalrelated]
  rcases hcl : collLoop hrvFn sr entries with ⟨res, es⟩
  cases res <;> simp

/-- C3 (amended): a single-table input is left unchanged, but a collection
input's mapping IS mutated: on success each stored table has been rebound in
place to its normalized version (the `Index` column consumed as row index and
the `Label` column dropped).  The original table values are not themselves
mutated — the mapping's entries are rebound to new tables. -/
theorem side_effects_amended (hrvFn : HrvFn) (sr : ℕ) (st : DefState) :
    (∀ t, (ecg_intervalrelated hrvFn (.single t) sr st).dataAfter = .single t) ∧
      (∀ entries out,
        (ecg_intervalrelated hrvFn (.collection entries) sr st).result = .ok out →
        (ecg_intervalrelated hrvFn (.collection entries) sr st).dataAfter =
          .collection (entries.map fun p => (p.1, dropIndexLabel p.2))) := by
  constructor
  · intro t
    by_cases hlen : (rateCols t).length = 1
    · cases hf : ecg_intervalrelated_formatinput t st.fmtDefault with
      | error e => rw [run_single_fmt_err hrvFn t sr st e hlen hf]
      | ok fmtD =>
        cases hh : hrvFn t sr with
        | error e => rw [run_single_hrv_err hrvFn t sr st fmtD e hlen hf hh]
        | ok H => rw [run_single_ok hrvFn t sr st fmtD H hlen hf hh]
    · rw [run_single_guard_ne hrvFn t sr st hlen]
  · intro entries out h
    rw [result_collection] at h
    cases hcl : (collLoop hrvFn sr entries).1 with
    | error e => rw [hcl] at h; simp [Except.map] at h
    | ok rows =>
      rw [dataAfter_collection, collLoop_snd_ok hrvFn sr entries rows hcl]

/-- Witness for C3's amended theorem: on the one-epoch collection the
post-call mapping holds the normalized table. -/
theorem side_effects_amended_witness :
    (ecg_intervalrelated hrvStub (.collection [("e", tEpoch)]) 100 initState).dataAfter
      = .collection ([("e", tEpoch)].map fun p => (p.1, dropIndexLabel p.2)) :=
  (side_effects_amended hrvStub 100 initState).2 [("e", tEpoch)]
    (.byIndex [("e", [("ECG_Rate_Mean", npMean [60]), ("HRV_MeanNN", 950)])]) rfl

/-- Counterexample to C3 as stated: after a successful collection call the
caller's mapping no longer holds the table it held before the call — `Index`
and `Label` are gone from the stored table. -/
theorem collection_mutation_counterexample :
    (ecg_intervalrelated hrvStub (.collection [("e", tEpoch)]) 100 initState).dataAfter
        = .collection [("e", ⟨[("ECG_Rate", [60])]⟩)] ∧
      (ecg_intervalrelated hrvStub (.collection [("e", tEpoch)]) 100 initState).dataAfter
        ≠ .collection [("e", tEpoch)] :=
  ⟨rfl, by decide⟩

theorem collLoop_pre_fail (hrvFn : HrvFn) (sr : ℕ) (pre : List (String × Table))
    (label : String) (tbl : Table) (post : List (String × Table)) (e : Err)
    (hpre : ∀ p ∈ pre, (analyzeOneLabel hrvFn sr p.2).isOk = true)
    (hfail : analyzeOneLabel hrvFn sr tbl = .error e) :
    (collLoop hrvFn sr (pre ++ (label, tbl) :: post)).1 = .error e := by
  induction pre with
  | nil => simpa using collLoop_cons_fail hrvFn sr label tbl post e hfail
  | cons q qre ih =>
    obtain ⟨ql, qt⟩ := q
    obtain ⟨r2, hr2⟩ := except_isOk_elim _ (hpre (ql, qt) (List.mem_cons_self _ _))
    rw [List.cons_append,
      collLoop_cons_ok hrvFn sr ql qt (qre ++ (label, tbl) :: post) r2 hr2,
      ih (fun p hp => hpre p (List.mem_cons_of_mem _ hp))]

/-- C8: in the collection case, if every label before some label analyzes
successfully and that label's analysis fails with any error `e` (including an
error raised inside the external variability routine, which is never caught),
then the whole call fails with exactly that error — no partial per-label
results are returned and the error surfaces unchanged. -/
theorem collection_all_or_nothing (hrvFn : HrvFn) (sr : ℕ) (st : DefState)
    (pre : List (String × Table)) (label : String) (tbl : Table)
    (post : List (String × Table)) (e : Err)
    (hpre : ∀ p ∈ pre, (analyzeOneLabel hrvFn sr p.2).isOk = true)
    (hfail : analyzeOneLabel hrvFn sr tbl = .error e) :
    (ecg_intervalrelated hrvFn (.collection (pre ++ (label, tbl) :: post)) sr st).result
      = .error e := by
  rw [result_collection, collLoop_pre_fail hrvFn sr pre label tbl post e hpre hfail]
  rfl

/-- Witness for C8: a three-epoch collection whose middle epoch makes the
variability routine raise an insufficient-samples error; the whole call fails
with exactly that error. -/
theorem collection_all_or_nothing_witness :
    analyzeOneLabel hrvStubFail 100 tShortEpoch = .error (.external "insufficient samples") ∧
      (ecg_intervalrelated hrvStubFail
          (.collection ([("e1", tEpoch)] ++ ("e2", tShortEpoch) :: [("e3", tEpoch)]))
          100 initState).result
        = .error (.external "insufficient samples") :=
  ⟨rfl,
    collection_all_or_nothing hrvStubFail 100 initState [("e1", tEpoch)] "e2" tShortEpoch
      [("e3", tEpoch)] (.external "insufficient samples") (by decide) rfl⟩

theorem collLoop_fail_missing (hrvFn : HrvFn) (sr : ℕ) (entries : List (String × Table))
    (hIL : ∀ p ∈ entries, "Index" ∈ (p.2 : Table).colNames ∧ "Label" ∈ p.2.colNames)
    (hmiss : ∃ p ∈ entries, (rateCols p.2).length = 0) :
    ∃ e, (collLoop hrvFn sr entries).1 = .error e := by
  induction entries with
  | nil => obtain ⟨p, hp, _⟩ := hmiss; simp at hp
  | cons q rest ih =>
    obtain ⟨ql, qt⟩ := q
    by_cases hq0 : (rateCols qt).length = 0
    · have hIL1 := hIL (ql, qt) (List.mem_cons_self _ _)
      have hset := setIndexDropLabel_ok qt hIL1.1 hIL1.2
      have hfmt : ecg_intervalrelated_formatinput (dropIndexLabel qt) []
          = .error (.valueError rateMsg) := by
        unfold ecg_intervalrelated_formatinput
        rw [if_pos (by rw [rateCols_dropIndexLabel_nil qt hq0]; rfl)]
      have hone : analyzeOneLabel hrvFn sr qt = .error (.valueError rateMsg) := by
        unfold analyzeOneLabel
        simp only [hset, hfmt]
      exact ⟨_, collLoop_cons_fail hrvFn sr ql qt rest _ hone⟩
    · have hmiss2 : ∃ p ∈ rest, (rateCols p.2).length = 0 := by
        obtain ⟨p, hp, hp0⟩ := hmiss
        rcases List.mem_cons.mp hp with rfl | hmem
        · exact absurd hp0 hq0
        · exact ⟨p, hmem, hp0⟩
      cases hone : analyzeOneLabel hrvFn sr qt with
      | error e => exact ⟨e, collLoop_cons_fail hrvFn sr ql qt rest e hone⟩
      | ok r2 =>
        obtain ⟨e, he⟩ := ih (fun p hp => hIL p (List.mem_cons_of_mem _ hp)) hmiss2
        refine ⟨e, ?_⟩
        rw [collLoop_cons_ok hrvFn sr ql qt rest r2 hone, he]

/-- C6 (amended): a SINGLE table with no rate-like column is rejected with
the `ValueError` whose message names `ECG_Rate`; in the collection case a
missing rate-like column in any table still makes the whole call fail with
some error and produce no output, but the error is not guaranteed to be that
`ValueError` (see the counterexample theorem: an earlier label can fail first
with a `KeyError`). -/
theorem missing_rate_column_amended :
    (∀ (hrvFn : HrvFn) (t : Table) (sr : ℕ) (st : DefState),
        (rateCols t).length = 0 →
        (ecg_intervalrelated hrvFn (.single t) sr st).result
          = .error (.valueError rateMsg)) ∧
      strContainsSub rateMsg "ECG_Rate" = true ∧
      (∀ (hrvFn : HrvFn) (entries : List (String × Table)) (sr : ℕ) (st : DefState),
        (∀ p ∈ entries, "Index" ∈ (p.2 : Table).colNames ∧ "Label" ∈ p.2.colNames) →
        (∃ p ∈ entries, (rateCols p.2).length = 0) →
        ∃ e, (ecg_intervalrelated hrvFn (.collection entries) sr st).result = .error e) := by
  refine ⟨?_, by decide, ?_⟩
  · intro hrvFn t sr st h0
    rw [run_single_guard_ne hrvFn t sr st (by omega)]
  · intro hrvFn entries sr st hIL hmiss
    obtain ⟨e, he⟩ := collLoop_fail_missing hrvFn sr entries hIL hmiss
    exact ⟨e, by rw [result_collection, he]; rfl⟩

/-- Witness for C6's amended theorem at concrete rate-less tables. -/
theorem missing_rate_column_amended_witness :
    ((ecg_intervalrelated hrvStub (.single tNoRate) 100 initState).result
        = .error (.valueError rateMsg)) ∧
      ∃ e, (ecg_intervalrelated hrvStub (.collection [("b", tNoRate)]) 100 initState).result
        = .error e :=
  ⟨missing_rate_column_amended.1 hrvStub tNoRate 100 initState (by decide),
    missing_rate_column_amended.2.2 hrvStub [("b", tNoRate)] 100 initState (by decide)
      (by decide)⟩

/-- Counterexample to C6 as stated: a two-epoch collection whose second table
has no rate-like column (the claim's premise), but whose first table's unique
rate-like column is `ECG_Rate_Raw`.  The call fails with the exact-name
`KeyError` raised while processing the FIRST label — not with the
`InvalidInputError` (`ValueError`) the claim promises. -/
theorem missing_rate_column_error_type_counterexample :
    (∃ p ∈ [("a", tRawEpoch), ("b", tNoRate)], (rateCols p.2).length = 0) ∧
      (ecg_intervalrelated hrvStub (.collection [("a", tRawEpoch), ("b", tNoRate)])
          100 initState).result = .error (.keyError "ECG_Rate") ∧
      ¬∃ m, (ecg_intervalrelated hrvStub (.collection [("a", tRawEpoch), ("b", tNoRate)])
          100 initState).result = .error (.valueError m) := by
  refine ⟨by decide, rfl, ?_⟩
  rintro ⟨m, hm⟩
  rw [show (ecg_intervalrelated hrvStub (.collection [("a", tRawEpoch), ("b", tNoRate)])
      100 initState).result = .error (.keyError "ECG_Rate") from rfl] at hm
  simp at hm

theorem listUnion_nil_left (ks : List String) : listUnion [] ks = ks := by
  unfold listUnion
  simp only [List.nil_append]
  induction ks with
  | nil => rfl
  | cons k kt ih => simp [List.filter, ih]

/-- C7: when a two-label collection call succeeds, the output table's row
index is exactly the two labels in order, its columns are the
first-appearance-order union of the keys of the two per-label records (each
of which is exactly the individual single-table analysis of that label's
table), and a key present in one record but absent from the other is the
missing-value marker (`none`, pandas `NaN`) in the other's row. -/
theorem collection_output_shape (hrvFn : HrvFn) (sr : ℕ) (st : DefState)
    (A B : String) (tA tB : Table) (out : Output)
    (hAB : A ≠ B)
    (h : (ecg_intervalrelated hrvFn (.collection [(A, tA), (B, tB)]) sr st).result
      = .ok out) :
    ∃ rA rB,
      analyzeOneLabel hrvFn sr tA = .ok rA ∧
      analyzeOneLabel hrvFn sr tB = .ok rB ∧
      out = .byIndex [(A, rA), (B, rB)] ∧
      Output.rowIndexOf out = [A, B] ∧
      Output.columnsOf out = listUnion (keysOf rA) (keysOf rB) ∧
      (∀ k, k ∈ keysOf rA → k ∉ keysOf rB → Output.cell out B k = none) ∧
      (∀ k, k ∈ keysOf rB → k ∉ keysOf rA → Output.cell out A k = none) := by
  rw [result_collection] at h
  cases hA : analyzeOneLabel hrvFn sr tA with
  | error e =>
    rw [collLoop_cons_fail hrvFn sr A tA [(B, tB)] e hA] at h
    simp [Except.map] at h
  | ok rA =>
    rw [collLoop_cons_ok hrvFn sr A tA [(B, tB)] rA hA] at h
    cases hB : analyzeOneLabel hrvFn sr tB with
    | error e =>
      rw [collLoop_cons_fail hrvFn sr B tB [] e hB] at h
      simp [Except.map] at h
    | ok rB =>
      rw [collLoop_cons_ok hrvFn sr B tB [] rB hB] at h
      simp only [collLoop, Except.map] at h
      obtain rfl : Output.byIndex [(A, rA), (B, rB)] = out := by
        cases h; rfl
      refine ⟨rA, rB, rfl, rfl, rfl, rfl, ?_, ?_, ?_⟩
      · show List.foldl (fun acc p => listUnion acc (keysOf p.2)) [] [(A, rA), (B, rB)]
          = listUnion (keysOf rA) (keysOf rB)
        simp only [List.foldl_cons, List.foldl_nil, listUnion_nil_left]
      · intro k hkA hkB
        simp only [Output.cell, alookup, if_neg (show ¬(A, rA).1 = B by simpa using hAB),
          if_pos (show (B, rB).1 = B from rfl), Option.bind_some]
        exact alookup_eq_none_of_not_mem k rB hkB
      · intro k hkB hkA
        simp only [Output.cell, alookup, if_pos (show (A, rA).1 = A from rfl),
          Option.bind_some]
        exact alookup_eq_none_of_not_mem k rA hkA

/-- Witness for C7: the spec's two-epoch scenario, where the second epoch's
window yields no variability metric; its `HRV_MeanNN` cell is the marker. -/
theorem collection_output_shape_witness :
    ∃ rA rB,
      analyzeOneLabel hrvStubWindow 100 tEpoch = .ok rA ∧
      analyzeOneLabel hrvStubWindow 100 tShortEpoch = .ok rB ∧
      Output.byIndex [("epoch1", [("ECG_Rate_Mean", npMean [60]), ("HRV_MeanNN", 900)]),
          ("epoch2", [("ECG_Rate_Mean", npMean [64])])]
        = .byIndex [("epoch1", rA), ("epoch2", rB)] ∧
      Output.rowIndexOf (Output.byIndex
          [("epoch1", [("ECG_Rate_Mean", npMean [60]), ("HRV_MeanNN", 900)]),
            ("epoch2", [("ECG_Rate_Mean", npMean [64])])]) = ["epoch1", "epoch2"] ∧
      Output.columnsOf (Output.byIndex
          [("epoch1", [("ECG_Rate_Mean", npMean [60]), ("HRV_MeanNN", 900)]),
            ("epoch2", [("ECG_Rate_Mean", npMean [64])])])
        = listUnion (keysOf rA) (keysOf rB) ∧
      (∀ k, k ∈ keysOf rA → k ∉ keysOf rB →
        Output.cell (Output.byIndex
          [("epoch1", [("ECG_Rate_Mean", npMean [60]), ("HRV_MeanNN", 900)]),
            ("epoch2", [("ECG_Rate_Mean", npMean [64])])]) "epoch2" k = none) ∧
      (∀ k, k ∈ keysOf rB → k ∉ keysOf rA →
        Output.cell (Output.byIndex
          [("epoch1", [("ECG_Rate_Mean", npMean [60]), ("HRV_MeanNN", 900)]),
            ("epoch2", [("ECG_Rate_Mean", npMean [64])])]) "epoch1" k = none) :=
  collection_output_shape hrvStubWindow 100 initState "epoch1" "epoch2" tEpoch tShortEpoch
    (.byIndex [("epoch1", [("ECG_Rate_Mean", npMean [60]), ("HRV_MeanNN", 900)]),
      ("epoch2", [("ECG_Rate_Mean", npMean [64])])])
    (by decide) rfl

/-- C4 (amended): on a SINGLE-table input, two successive calls (the second
starting from the first call's default-dictionary state) return bit-identical
results, for any starting state and any deterministic variability routine
whose returned metric columns are distinct; in particular the second call
succeeds whenever the first did.  On collections the property fails (see the
counterexample theorem). -/
theorem idempotent_single_amended (hrvFn : HrvFn) (t : Table) (sr : ℕ) (st : DefState)
    (hnd : ∀ H, hrvFn t sr = .ok H → (keysOf H).Nodup) :
    (ecg_intervalrelated hrvFn (.single t) sr
        (ecg_intervalrelated hrvFn (.single t) sr st).stAfter).result
      = (ecg_intervalrelated hrvFn (.single t) sr st).result := by
  by_cases hlen : (rateCols t).length = 1
  · cases hf : ecg_intervalrelated_formatinput t st.fmtDefault with
    | error e =>
      have h1 := run_single_fmt_err hrvFn t sr st e hlen hf
      rw [h1]
      show (ecg_intervalrelated hrvFn (.single t) sr st).result = Except.error e
      rw [h1]
    | ok fmtD =>
      obtain ⟨hg, signal, hsig, rfl⟩ := formatinput_ok_inv t st.fmtDefault fmtD hf
      have hf2 : ecg_intervalrelated_formatinput t
          (dinsert st.fmtDefault "ECG_Rate_Mean" (npMean signal))
          = .ok (dinsert st.fmtDefault "ECG_Rate_Mean" (npMean signal)) := by
        rw [formatinput_ok_of_exact t _ signal hg hsig, dinsert_idem]
      cases hh : hrvFn t sr with
      | error e =>
        have h1 := run_single_hrv_err hrvFn t sr st _ e hlen hf hh
        rw [h1]
        show (ecg_intervalrelated hrvFn (.single t) sr
            ⟨dinsert st.fmtDefault "ECG_Rate_Mean" (npMean signal), st.hrvDefault⟩).result
          = Except.error e
        rw [run_single_hrv_err hrvFn t sr
          ⟨dinsert st.fmtDefault "ECG_Rate_Mean" (npMean signal), st.hrvDefault⟩
          _ e hlen hf2 hh]
      | ok H =>
        have h1 := run_single_ok hrvFn t sr st _ H hlen hf hh
        rw [h1]
        show (ecg_intervalrelated hrvFn (.single t) sr
            ⟨dinsert st.fmtDefault "ECG_Rate_Mean" (npMean signal),
              dupdate st.hrvDefault H⟩).result
          = Except.ok (Output.singleRow
              (dupdate (dupdate [] (dinsert st.fmtDefault "ECG_Rate_Mean" (npMean signal)))
                (dupdate st.hrvDefault H)))
        rw [run_single_ok hrvFn t sr
          ⟨dinsert st.fmtDefault "ECG_Rate_Mean" (npMean signal), dupdate st.hrvDefault H⟩
          _ H hlen hf2 hh]
        show Except.ok (Output.singleRow
            (dupdate (dupdate [] (dinsert st.fmtDefault "ECG_Rate_Mean" (npMean signal)))
              (dupdate (dupdate st.hrvDefault H) H))) = _
        rw [dupdate_idem st.hrvDefault H (hnd H hh)]
  · have h1 := run_single_guard_ne hrvFn t sr st hlen
    rw [h1]
    show (ecg_intervalrelated hrvFn (.single t) sr st).result
      = Except.error (.valueError rateMsg)
    rw [h1]

/-- Witness for C4's amended theorem: two successive calls on the same plain
single table agree. -/
theorem idempotent_single_amended_witness :
    (ecg_intervalrelated hrvStub (.single tRate4) 100
        (ecg_intervalrelated hrvStub (.single tRate4) 100 initState).stAfter).result
      = (ecg_intervalrelated hrvStub (.single tRate4) 100 initState).result :=
  idempotent_single_amended hrvStub tRate4 100 initState
    (fun H hH => by
      rw [show hrvStub tRate4 100 = .ok [("HRV_MeanNN", (950 : ℚ))] from rfl] at hH
      cases hH
      decide)

/-- Counterexample to C4 as stated: on a collection, the first call succeeds
but rebinds the stored table to its normalized version (without `Index`), so
the second call on the same (now mutated) input raises a `KeyError` on
`Index` instead of succeeding. -/
theorem second_call_collection_fails :
    (ecg_intervalrelated hrvStub (.collection [("e", tEpoch)]) 100 initState).result
        = .ok (.byIndex [("e", [("ECG_Rate_Mean", npMean [60]), ("HRV_MeanNN", 950)])]) ∧
      (ecg_intervalrelated hrvStub
          ((ecg_intervalrelated hrvStub (.collection [("e", tEpoch)]) 100 initState).dataAfter)
          100
          ((ecg_intervalrelated hrvStub (.collection [("e", tEpoch)]) 100 initState).stAfter)).result
        = .error (.keyError "Index") :=
  ⟨rfl, rfl⟩

end NK
